import Mathlib

/-!
Verification of the piano-roll grid construction and rendering engine of
`src/piano_roll/main.py`, shallowly embedded in Lean.

Cells are modelled as the strings the Python code builds (ANSI colour codes
included).  Python's fallible operations (integer division by zero, indexing
`piano_roll[0]` on an empty list) are modelled in `Option`: `none` is a raised
exception.  Ticks and pitches are natural numbers, as produced by the MIDI
event source; row indices, which can go negative in Python (`108 - note`),
are integers.
-/

namespace PianoRoll

/-- `PianoRoll.note_text`. -/
def note_text : String := " █"

/-- `PianoRoll.padding`. -/
def padding : String := "  "

/-- `PianoRoll.padding_with_border`. -/
def padding_with_border : String := "│ "

/-- `PianoRoll.num_rows`. -/
def num_rows : Nat := 88

/-- `colorama.Fore.LIGHTCYAN_EX`, assigned to `self.white_key_color`. -/
def white_key_color : String := "\x1b[96m"

/-- `colorama.Fore.GREEN`, assigned to `self.black_key_color`. -/
def black_key_color : String := "\x1b[32m"

/-- `colorama.Fore.LIGHTBLACK_EX`, assigned to `self.border_color`. -/
def border_color : String := "\x1b[90m"

/-- `PianoRoll.is_white_key`: `(note % 12) in {0, 2, 4, 5, 7, 9, 11}`.
Python `%` with a positive modulus returns a non-negative remainder, which is
`Int.emod`. -/
def is_white_key (note : Int) : Bool :=
  ([0, 2, 4, 5, 7, 9, 11] : List Int).contains (note % 12)

/-- `PianoRoll._get_color_code`. -/
def get_color_code (note : Int) : String :=
  if is_white_key note then white_key_color else black_key_color

/-- Python's substring test `needle in hay`, on the character lists. -/
def containsSub (needle : List Char) : List Char → Bool
  | [] => needle.isEmpty
  | c :: cs => needle.isPrefixOf (c :: cs) || containsSub needle cs

/-- The test `self.note_text in note` used by the sustain-filling pass. -/
def isNoteCell (c : String) : Bool :=
  containsSub note_text.toList c.toList

/-- Python `a // b` on non-negative ints; `ZeroDivisionError` is `none`. -/
def pydiv (a b : Nat) : Option Nat :=
  if b = 0 then none else some (a / b)

/-- `start_tick // (ticks_per_beat // self.resolution)`: the column of a
marker with the given tick. -/
def markerCol (tpb res tick : Nat) : Option Nat :=
  (pydiv tpb res).bind fun step => pydiv tick step

/-- The character grid `piano_roll`: a list of rows of cell strings. -/
abbrev Grid := List (List String)

/-- `[["" for _ in range(num_cols)] for _ in range(self.num_rows)]`. -/
def emptyGrid (numCols : Nat) : Grid :=
  List.replicate num_rows (List.replicate numCols "")

/-- One step of building the `note_end_times` dict: insertion-ordered
association list, appending the pitch to the entry of `tick` when present and
appending a fresh entry otherwise. -/
def addToGroups : List (Nat × List Nat) → Nat → Nat → List (Nat × List Nat)
  | [], p, t => [(t, [p])]
  | (t2, ps) :: gs, p, t =>
    if t2 = t then (t2, ps ++ [p]) :: gs else (t2, ps) :: addToGroups gs p t

/-- The `note_end_times` dict: markers grouped by tick, in insertion order. -/
def noteEndTimes (notes : List (Nat × Nat)) : List (Nat × List Nat) :=
  notes.foldl (fun gs m => addToGroups gs m.1 m.2) []

/-- The iteration order of the marker-placement double loop:
`for start_tick, notes_on in note_end_times.items(): for note in notes_on`. -/
def flattenGroups : List (Nat × List Nat) → List (Nat × Nat)
  | [] => []
  | (t, ps) :: gs => (ps.map fun p => (p, t)) ++ flattenGroups gs

/-- `piano_roll[row][col] = v` (only invoked at in-bounds indices). -/
def setCell (g : Grid) (r c : Nat) (v : String) : Grid :=
  g.set r ((g.getD r []).set c v)

/-- The body of the placement loop for one marker `m = (note, start_tick)`:
compute `row` and `col`, and write the coloured note glyph when both are in
bounds.  The column computation can raise `ZeroDivisionError`. -/
def writeMarkerOpt (color : Bool) (numCols tpb res : Nat) (g : Grid)
    (m : Nat × Nat) : Option Grid :=
  (markerCol tpb res m.2).map fun col =>
    let row : Int := 108 - (m.1 : Int)
    let code := if color then get_color_code (m.1 : Int) else ""
    if 0 ≤ row ∧ row < (num_rows : Int) ∧ col < numCols then
      setCell g row.toNat col (code ++ note_text)
    else g

/-- `writeMarkerOpt` with the step `ticks_per_beat // resolution` precomputed
and assumed non-zero, so that no exception can occur. -/
def writeMarkerT (color : Bool) (numCols step : Nat) (g : Grid)
    (m : Nat × Nat) : Grid :=
  let row : Int := 108 - (m.1 : Int)
  let col := m.2 / step
  let code := if color then get_color_code (m.1 : Int) else ""
  if 0 ≤ row ∧ row < (num_rows : Int) ∧ col < numCols then
    setCell g row.toNat col (code ++ note_text)
  else g

/-- The placement double loop over the flattened marker sequence. -/
def placeAll (color : Bool) (numCols tpb res : Nat) (g : Grid) :
    List (Nat × Nat) → Option Grid
  | [] => some g
  | m :: ms =>
    match writeMarkerOpt color numCols tpb res g m with
    | none => none
    | some g2 => placeAll color numCols tpb res g2 ms

/-- Exception-free version of `placeAll` for a non-zero step. -/
def placeAllT (color : Bool) (numCols step : Nat) (g : Grid) :
    List (Nat × Nat) → Grid
  | [] => g
  | m :: ms => placeAllT color numCols step (writeMarkerT color numCols step g m) ms

/-- The sparse marker grid, before the sustain-filling pass:
lines 120-135 of `main.py`. -/
def markedGrid (color : Bool) (res : Nat) (notes : List (Nat × Nat))
    (tpb : Nat) : Option Grid :=
  placeAll color notes.length tpb res (emptyGrid notes.length)
    (flattenGroups (noteEndTimes notes))

/-- `is_border_required` (with `self.border` explicit). -/
def is_border_required (border : Bool) (i : Nat) : Bool :=
  border &&
    (((((i : Int) - ((num_rows : Int) - 4)) % 12 == 0)) ||
     ((((i : Int) - ((num_rows : Int) - 9)) % 12 == 0)))

/-- The non-note cell value the sustain pass writes in row `i`: a bordered
padding glyph on border rows, plain padding otherwise. -/
def baseCell (border : Bool) (i : Nat) : String :=
  if is_border_required border i then border_color ++ padding_with_border
  else padding

/-- The inner loop of the sustain-filling pass over one row, carrying the
toggle flag `start` and the last seen note glyph `text`.  Reads happen before
the write at each index, so the Python aliasing of `row` is immaterial. -/
def sustainRowAux (base : String) : Bool → String → List String → List String
  | _, _, [] => []
  | start, text, c :: cs =>
    let start2 := if isNoteCell c then !start else start
    let text2 := if isNoteCell c then c else text
    (if start2 then text2 else base) :: sustainRowAux base start2 text2 cs

/-- The sustain-filling pass on row number `i`. -/
def sustainFillRow (border : Bool) (i : Nat) (row : List String) : List String :=
  sustainRowAux (baseCell border i) false "" row

/-- The sustain-filling pass, `for i, row in enumerate(piano_roll)`,
starting at row number `i`. -/
def sustainFillFrom (border : Bool) : Nat → Grid → Grid
  | _, [] => []
  | i, row :: rest => sustainFillRow border i row :: sustainFillFrom border (i + 1) rest

/-- The sustain-filling pass over the whole grid (lines 142-154). -/
def sustainFill (border : Bool) (g : Grid) : Grid :=
  sustainFillFrom border 0 g

/-- The final value of the toggle flag after scanning a row, starting from
`s`. -/
def flagAfter (s : Bool) (row : List String) : Bool :=
  row.foldl (fun st c => if isNoteCell c then !st else st) s

/-- The final value of `text` after scanning a row, starting from `t`. -/
def textAfter (t : String) (row : List String) : String :=
  row.foldl (fun tx c => if isNoteCell c then c else tx) t

/-- The "inside a sustained note" flag left by the sustain pass after the
last column of a row (it starts at `False`). -/
def rowFinalFlag (row : List String) : Bool :=
  flagAfter false row

/-- A Python list comprehension whose element expression may raise: elements
are evaluated left to right and the first exception propagates. -/
def mapOpt (f : α → Option β) : List α → Option (List β)
  | [] => some []
  | a :: as => (f a).bind fun b => (mapOpt f as).map fun bs => b :: bs

/-- `[[row[i] for row in piano_roll] for i in range(len(piano_roll[0]))]`:
the transpose step; indexing `piano_roll[0]` raises on an empty grid, and
`row[i]` raises when a row is shorter than row 0. -/
def pyTranspose (g : Grid) : Option Grid :=
  match g with
  | [] => none
  | r0 :: _ => mapOpt (fun i => mapOpt (fun row => row[i]?) g) (List.range r0.length)

/-- Total transpose of a rectangular grid with `m` columns; agrees with
`pyTranspose` on non-empty rectangular grids. -/
def transposeT (g : Grid) (m : Nat) : Grid :=
  (List.range m).map fun i => g.map fun row => row.getD i ""

/-- Total orientation transform of a rectangular grid with `m` columns. -/
def orientT (g : Grid) (m : Nat) : Grid :=
  ((transposeT g m).map List.reverse).reverse

/-- The orientation transform (lines 156-158): transpose, reverse the entries
within each row, reverse the order of rows. -/
def orientOpt (g : Grid) : Option Grid :=
  (pyTranspose g).map fun t => (t.map List.reverse).reverse

/-- The grid after placement and the sustain pass, before orientation. -/
def preOriented (border color : Bool) (res : Nat) (notes : List (Nat × Nat))
    (tpb : Nat) : Option Grid :=
  (markedGrid color res notes tpb).map (sustainFill border)

/-- `PianoRoll.generate`. -/
def generate (border color : Bool) (res : Nat) (notes : List (Nat × Nat))
    (tpb : Nat) : Option Grid :=
  (preOriented border color res notes tpb).bind orientOpt

/-- Static render mode: one printed line per oriented row,
`"".join(row).rstrip()`. -/
def staticRenderLines (g : Grid) : List String :=
  g.map fun row => (String.join row).trimRight

/-- Python `range(start, stop, -1)` for `start stop : Int`. -/
def pyRangeDown1 (start stop : Int) : List Int :=
  (List.range (start - stop).toNat).map fun i => start - i

/-- The animated renderer's window start indices:
`range(len(piano_roll) - height, -1, -1)`. -/
def frameStarts (totalRows height : Nat) : List Int :=
  pyRangeDown1 ((totalRows : Int) - height) (-1)

/-- Well-formedness of an event sequence, as the spec words it: every pitch
appears an even number of times (each note contributes an onset marker and a
release marker of the same pitch). -/
def wellFormed (notes : List (Nat × Nat)) : Prop :=
  ∀ p : Nat, Even ((notes.filter fun m => m.1 == p).length)

/-- The cell of `g` at row `r`, column `c` (both in bounds wherever used). -/
def cellAt (g : Grid) (r c : Nat) : String :=
  (g.getD r []).getD c ""

/-- Marker `m` writes the cell `(r, c)`: its pitch maps to row `r` and its
tick to column `c` under step `step`. -/
def hitsB (step r c : Nat) (m : Nat × Nat) : Bool :=
  (((108 : Int) - (m.1 : Int)) == (r : Int)) && (m.2 / step == c)

/-- `g` is a rectangular 88-row grid with `nc` columns. -/
def Shape (g : Grid) (nc : Nat) : Prop :=
  g.length = num_rows ∧ ∀ row ∈ g, row.length = nc

/-! ### Generic helper lemmas -/

theorem mapOpt_eq_map {f : α → Option β} {f2 : α → β} :
    ∀ {l : List α}, (∀ a ∈ l, f a = some (f2 a)) → mapOpt f l = some (l.map f2) := by
  intro l
  induction l with
  | nil => intro _; rfl
  | cons a as ih =>
    intro h
    simp only [mapOpt, h a (by simp), ih fun x hx => h x (by simp [hx]),
      Option.bind_eq_bind, Option.some_bind, Option.map_some', List.map_cons]

/-! ### The orientation transform on rectangular grids -/

theorem pyTranspose_rect (g : Grid) (m : Nat) (hne : g ≠ [])
    (hrows : ∀ row ∈ g, row.length = m) :
    pyTranspose g = some (transposeT g m) := by
  match g, hne with
  | r0 :: rest, _ =>
    have hr0 : r0.length = m := hrows r0 (by simp)
    show mapOpt _ (List.range r0.length) = _
    rw [hr0]
    exact mapOpt_eq_map fun i hi =>
      mapOpt_eq_map fun row hrow => by
        have hlt : i < row.length := by
          rw [hrows row hrow]; simpa using hi
        rw [List.getElem?_eq_getElem hlt, List.getD_eq_getElem row "" hlt]

theorem orientOpt_rect (g : Grid) (m : Nat) (hne : g ≠ [])
    (hrows : ∀ row ∈ g, row.length = m) :
    orientOpt g = some (orientT g m) := by
  rw [orientOpt, pyTranspose_rect g m hne hrows, Option.map_some']
  rfl

theorem length_orientT (g : Grid) (m : Nat) : (orientT g m).length = m := by
  simp [orientT, transposeT]

theorem length_mem_orientT (g : Grid) (m : Nat) :
    ∀ row ∈ orientT g m, row.length = g.length := by
  intro row hrow
  simp only [orientT, List.mem_reverse, List.mem_map] at hrow
  obtain ⟨row0, hrow0, rfl⟩ := hrow
  simp only [transposeT, List.mem_map, List.mem_range] at hrow0
  obtain ⟨i, _, rfl⟩ := hrow0
  simp

theorem orientT_getD (g : Grid) (m : Nat) (k j : Nat) (hk : k < m)
    (hj : j < g.length) :
    ((orientT g m).getD k []).getD j "" =
      (g.getD (g.length - 1 - j) []).getD (m - 1 - k) "" := by
  have h1 : k < (orientT g m).length := by rw [length_orientT]; exact hk
  rw [List.getD_eq_getElem _ [] h1]
  have h2 : g.length - 1 - j < g.length := by omega
  rw [List.getD_eq_getElem _ [] h2]
  simp only [orientT]
  rw [List.getElem_reverse]
  simp only [List.getElem_map, transposeT, List.getElem_range, List.length_map,
    List.length_range]
  have h3 : j < (g.map fun row => row.getD (m - 1 - k) "").length := by
    simpa using hj
  rw [List.getD_eq_getElem _ "" (by simpa using h3)]
  rw [List.getElem_reverse]
  simp

theorem orientT_involution (g : Grid) (m : Nat) (hne : g ≠ []) (_hm : 0 < m)
    (hrows : ∀ row ∈ g, row.length = m) :
    orientT (orientT g m) g.length = g := by
  have hn : 0 < g.length := List.length_pos.mpr hne
  apply List.ext_getElem
  · rw [length_orientT]
  · intro a h1 h2
    have ha : a < g.length := h2
    have hrowlen : ∀ row ∈ orientT g m, row.length = g.length :=
      length_mem_orientT g m
    apply List.ext_getElem
    · have hmem : (orientT (orientT g m) g.length)[a] ∈ orientT (orientT g m) g.length :=
        List.getElem_mem h1
      rw [length_mem_orientT (orientT g m) g.length _ hmem, length_orientT,
        hrows g[a] (List.getElem_mem h2)]
    · intro b hb1 hb2
      have hbm : b < m := by
        rw [hrows g[a] (List.getElem_mem h2)] at hb2; exact hb2
      have e1 : (orientT (orientT g m) g.length)[a][b] =
          ((orientT (orientT g m) g.length).getD a []).getD b "" := by
        rw [List.getD_eq_getElem _ [] h1, List.getD_eq_getElem _ "" hb1]
      rw [e1, orientT_getD (orientT g m) g.length a b ha
        (by rw [length_orientT]; exact hbm)]
      have hk2 : m - 1 - b < m := by omega
      have hj2 : g.length - 1 - a < g.length := by omega
      rw [show (orientT g m).length - 1 - b = m - 1 - b by rw [length_orientT],
        orientT_getD g m (m - 1 - b) (g.length - 1 - a) hk2 hj2]
      have ej : g.length - 1 - (g.length - 1 - a) = a := by omega
      have ek : m - 1 - (m - 1 - b) = b := by omega
      rw [ej, ek, List.getD_eq_getElem _ [] ha, List.getD_eq_getElem _ "" hb2]

/-- The orientation transform applied twice on a non-empty rectangular grid
with at least one column returns the original grid. -/
theorem orient_double (g : Grid) (m : Nat) (hne : g ≠ []) (hm : 0 < m)
    (hrows : ∀ row ∈ g, row.length = m) :
    (orientOpt g).bind orientOpt = some g := by
  rw [orientOpt_rect g m hne hrows, Option.some_bind]
  have hne2 : orientT g m ≠ [] := by
    intro h
    have := length_orientT g m
    rw [h] at this
    simp at this
    omega
  rw [orientOpt_rect (orientT g m) g.length hne2 (length_mem_orientT g m),
    orientT_involution g m hne hm hrows]

/-! ### Claim C5: the orientation transform as an involution -/

/-- C5 counterexample: the rectangular 1-row, 0-column grid `[[]]` refutes
the claim as stated.  The first application collapses it to the empty grid
(`range(len(piano_roll[0])) = range(0)`), and the second application raises
(`piano_roll[0]` on an empty list), so applying the transform twice does not
return the original grid. -/
theorem orient_double_fails_on_zero_columns :
    (orientOpt [([] : List String)]).bind orientOpt = none ∧
      (orientOpt [([] : List String)]).bind orientOpt ≠ some [[]] := by
  constructor
  · rfl
  · decide

/-- C5 (amended): for every non-empty rectangular grid with at least one
column, applying the orientation transform (transpose, then reverse the
entries within each row, then reverse the order of rows) twice returns the
original grid. -/
theorem orient_double_involution (g : Grid) (m : Nat) (hne : g ≠ [])
    (hm : 0 < m) (hrows : ∀ row ∈ g, row.length = m) :
    (orientOpt g).bind orientOpt = some g :=
  orient_double g m hne hm hrows

/-- Witness for `orient_double_involution` at the 2×1 grid `[["a"], ["b"]]`. -/
theorem orient_double_involution_witness :
    ([["a"], ["b"]] : Grid) ≠ [] ∧ 0 < 1 ∧
      (orientOpt [["a"], ["b"]]).bind orientOpt = some [["a"], ["b"]] :=
  ⟨by decide, by decide,
    orient_double_involution [["a"], ["b"]] 1 (by decide) (by decide)
      (by intro row hrow; simp at hrow; rcases hrow with h | h <;> simp [h])⟩

/-! ### Claim C10: white-key classification -/

/-- C10: the white-key classification is periodic with period 12, where
`is_white_key` holds exactly when the pitch class `n % 12` lies in
`{0, 2, 4, 5, 7, 9, 11}`. -/
theorem is_white_key_periodic (n : Int) :
    is_white_key (n + 12) = is_white_key n ∧
      (is_white_key n = true ↔ n % 12 ∈ ([0, 2, 4, 5, 7, 9, 11] : List Int)) := by
  constructor
  · have h : (n + 12) % 12 = n % 12 := by omega
    rw [is_white_key, is_white_key, h]
  · rw [is_white_key]
    exact List.elem_iff

/-! ### Claim C7: animated-mode window start indices -/

/-- C7: in animated mode the window start index runs through exactly the
values `totalRows - H, totalRows - H - 1, ..., 1, 0` in that order (the
`k`-th frame starts at `totalRows - H - k`), and when `totalRows < H` the
index sequence is empty, so no frame is rendered. -/
theorem frameStarts_spec (totalRows height : Nat) :
    frameStarts totalRows height =
        (List.range (totalRows + 1 - height)).map
          (fun k => (totalRows : Int) - (height : Int) - (k : Int)) ∧
      (totalRows < height → frameStarts totalRows height = []) := by
  have hlen : ((totalRows : Int) - (height : Int) - (-1)).toNat =
      totalRows + 1 - height := by omega
  constructor
  · rw [frameStarts, pyRangeDown1, hlen]
  · intro hlt
    rw [frameStarts, pyRangeDown1, hlen,
      show totalRows + 1 - height = 0 by omega]
    rfl

/-- Witness for `frameStarts_spec`: with 2 oriented rows and terminal height
5 the window range is empty. -/
theorem frameStarts_spec_witness : 2 < 5 ∧ frameStarts 2 5 = [] :=
  ⟨by decide, (frameStarts_spec 2 5).2 (by decide)⟩

/-! ### Claim C4: the empty event sequence -/

/-- C4 counterexample: for the empty event sequence the generated grid is
the empty list of rows — the transpose step turns the 88×0 pre-orientation
grid into a grid with zero rows — so the static render mode prints zero
lines, not 88. -/
theorem emptySeq_renders_nothing :
    generate true true 10 [] 480 = some [] ∧
      (staticRenderLines []).length = 0 ∧ (staticRenderLines []).length ≠ 88 := by
  refine ⟨rfl, rfl, by decide⟩

/-- C4 (amended): for the empty event sequence the pre-orientation grid has
88 rows of zero columns; the orientation transform then collapses it to a
grid with zero rows, so the static render mode prints nothing (zero lines)
rather than 88 rows. -/
theorem emptySeq_grid (border color : Bool) (res tpb : Nat) :
    markedGrid color res [] tpb = some (emptyGrid 0) ∧
      (emptyGrid 0).length = num_rows ∧
      (∀ row ∈ emptyGrid 0, row.length = 0) ∧
      generate border color res [] tpb = some [] ∧
      staticRenderLines [] = [] := by
  refine ⟨rfl, rfl, ?_, rfl, rfl⟩
  intro row hrow
  rw [List.eq_of_mem_replicate hrow]
  rfl

/-- Witness for `emptySeq_grid` at the default configuration. -/
theorem emptySeq_grid_witness :
    markedGrid true 10 [] 480 = some (emptyGrid 0) ∧
      generate true true 10 [] 480 = some [] :=
  ⟨(emptySeq_grid true true 10 480).1, (emptySeq_grid true true 10 480).2.2.2.1⟩

/-! ### Shape preservation through marker placement -/

theorem shape_emptyGrid (nc : Nat) : Shape (emptyGrid nc) nc := by
  constructor
  · simp [emptyGrid]
  · intro row hrow
    rw [List.eq_of_mem_replicate hrow]
    simp

theorem shape_setCell {g : Grid} {nc : Nat} (r c : Nat) (v : String)
    (h : Shape g nc) (hr : r < g.length) : Shape (setCell g r c v) nc := by
  constructor
  · simp [setCell, h.1]
  · intro row hrow
    rcases List.mem_or_eq_of_mem_set hrow with h2 | h2
    · exact h.2 row h2
    · rw [h2, List.length_set, List.getD_eq_getElem _ [] hr]
      exact h.2 _ (List.getElem_mem hr)

theorem shape_writeMarkerT {g : Grid} {nc : Nat} (color : Bool) (step : Nat)
    (m : Nat × Nat) (h : Shape g nc) : Shape (writeMarkerT color nc step g m) nc := by
  rw [writeMarkerT]
  split
  · next hin =>
    refine shape_setCell _ _ _ h ?_
    rw [h.1]
    omega
  · exact h

theorem shape_placeAllT {nc : Nat} (color : Bool) (step : Nat) :
    ∀ (ms : List (Nat × Nat)) (g : Grid), Shape g nc →
      Shape (placeAllT color nc step g ms) nc := by
  intro ms
  induction ms with
  | nil => intro g h; exact h
  | cons m ms ih =>
    intro g h
    exact ih _ (shape_writeMarkerT color step m h)

theorem shape_writeMarkerOpt {g g2 : Grid} {nc : Nat} {color : Bool}
    {tpb res : Nat} {m : Nat × Nat}
    (h : Shape g nc) (hw : writeMarkerOpt color nc tpb res g m = some g2) :
    Shape g2 nc := by
  rw [writeMarkerOpt] at hw
  rcases hmc : markerCol tpb res m.2 with _ | col
  · rw [hmc] at hw; simp at hw
  · rw [hmc] at hw
    simp only [Option.map_some', Option.some_inj] at hw
    rw [← hw]
    split
    · next hin =>
      refine shape_setCell _ _ _ h ?_
      rw [h.1]
      omega
    · exact h

theorem shape_placeAll {nc : Nat} {color : Bool} {tpb res : Nat} :
    ∀ {ms : List (Nat × Nat)} {g g2 : Grid}, Shape g nc →
      placeAll color nc tpb res g ms = some g2 → Shape g2 nc := by
  intro ms
  induction ms with
  | nil =>
    intro g g2 h hp
    rw [placeAll] at hp
    exact Option.some_inj.mp hp ▸ h
  | cons m ms ih =>
    intro g g2 h hp
    rw [placeAll] at hp
    rcases hw : writeMarkerOpt color nc tpb res g m with _ | gx
    · rw [hw] at hp; exact absurd hp (by simp)
    · rw [hw] at hp
      exact ih (shape_writeMarkerOpt h hw) hp

theorem writeMarkerOpt_eq_writeMarkerT {color : Bool} {nc tpb res : Nat}
    (hres : res ≠ 0) (hstep : tpb / res ≠ 0) (g : Grid) (m : Nat × Nat) :
    writeMarkerOpt color nc tpb res g m =
      some (writeMarkerT color nc (tpb / res) g m) := by
  simp [writeMarkerOpt, writeMarkerT, markerCol, pydiv, hres, hstep]

theorem placeAll_eq_placeAllT {color : Bool} {nc tpb res : Nat}
    (hres : res ≠ 0) (hstep : tpb / res ≠ 0) :
    ∀ (ms : List (Nat × Nat)) (g : Grid),
      placeAll color nc tpb res g ms = some (placeAllT color nc (tpb / res) g ms) := by
  intro ms
  induction ms with
  | nil => intro g; rfl
  | cons m ms ih =>
    intro g
    rw [placeAll, writeMarkerOpt_eq_writeMarkerT hres hstep, placeAllT]
    exact ih _

/-! ### The dict grouping is a permutation of the marker sequence -/

theorem flattenGroups_addToGroups (p t : Nat) :
    ∀ gs : List (Nat × List Nat),
      (flattenGroups (addToGroups gs p t)).Perm (flattenGroups gs ++ [(p, t)]) := by
  intro gs
  induction gs with
  | nil => simp [addToGroups, flattenGroups]
  | cons g2 gs ih =>
    obtain ⟨t2, ps⟩ := g2
    by_cases h : t2 = t
    · subst h
      simp only [addToGroups, if_pos rfl, flattenGroups, List.map_append,
        List.map_cons, List.map_nil, List.append_assoc]
      exact (@List.perm_append_comm _ [(p, t2)] (flattenGroups gs)).append_left _
    · simp only [addToGroups, if_neg h, flattenGroups, List.append_assoc]
      exact ih.append_left _

theorem flattenGroups_foldl :
    ∀ (notes : List (Nat × Nat)) (gs0 : List (Nat × List Nat)),
      (flattenGroups (notes.foldl (fun gs m => addToGroups gs m.1 m.2) gs0)).Perm
        (flattenGroups gs0 ++ notes) := by
  intro notes
  induction notes with
  | nil => intro gs0; simp
  | cons n ns ih =>
    intro gs0
    rw [List.foldl_cons]
    refine (ih (addToGroups gs0 n.1 n.2)).trans ?_
    have h1 := (flattenGroups_addToGroups n.1 n.2 gs0).append_right ns
    refine h1.trans ?_
    simp

theorem flattenGroups_noteEndTimes (notes : List (Nat × Nat)) :
    (flattenGroups (noteEndTimes notes)).Perm notes := by
  simpa [flattenGroups] using flattenGroups_foldl notes []

/-! ### Claim C8: dimensions of the pre-orientation grid -/

/-- C8: for every event sequence, the pre-orientation grid built by the
placement stage has exactly 88 rows, and every row has one column per marker
of the sequence (`num_cols = len(notes)`), independent of the tick values. -/
theorem markedGrid_shape (color : Bool) (res : Nat) (notes : List (Nat × Nat))
    (tpb : Nat) (g : Grid) (h : markedGrid color res notes tpb = some g) :
    g.length = num_rows ∧ ∀ row ∈ g, row.length = notes.length :=
  shape_placeAll (shape_emptyGrid notes.length) h

/-- Witness for `markedGrid_shape` on a concrete two-marker sequence. -/
theorem markedGrid_shape_witness :
    ((markedGrid true 10 [(60, 0), (60, 10)] 480).getD []).length = num_rows ∧
      ∀ row ∈ (markedGrid true 10 [(60, 0), (60, 10)] 480).getD [],
        row.length = ([(60, 0), (60, 10)] : List (Nat × Nat)).length :=
  markedGrid_shape true 10 [(60, 0), (60, 10)] 480
    ((markedGrid true 10 [(60, 0), (60, 10)] 480).getD []) (by rfl)

/-! ### Claim C9: out-of-range markers are silently dropped -/

/-- C9: a marker whose computed row `108 - pitch` or column
`tick // (ticks_per_beat // resolution)` falls outside the grid bounds is
written nowhere and raises nothing: its write step returns the grid
unchanged, and the placement loop over any marker sequence containing it
produces exactly the grid it would produce with that write removed. -/
theorem oob_marker_dropped (color : Bool) (numCols tpb res : Nat) (g : Grid)
    (l1 l2 : List (Nat × Nat)) (m : Nat × Nat) (col : Nat)
    (hcol : markerCol tpb res m.2 = some col)
    (hoob : (108 : Int) - (m.1 : Int) < 0 ∨
      (num_rows : Int) ≤ (108 : Int) - (m.1 : Int) ∨ numCols ≤ col) :
    writeMarkerOpt color numCols tpb res g m = some g ∧
      placeAll color numCols tpb res g (l1 ++ m :: l2) =
        placeAll color numCols tpb res g (l1 ++ l2) := by
  have key : ∀ g2 : Grid, writeMarkerOpt color numCols tpb res g2 m = some g2 := by
    intro g2
    rw [writeMarkerOpt, hcol, Option.map_some']
    congr 1
    rw [if_neg]
    intro hin
    omega
  refine ⟨key g, ?_⟩
  induction l1 generalizing g with
  | nil =>
    simp only [List.nil_append, placeAll, key g]
  | cons a l1 ih =>
    simp only [List.cons_append, placeAll]
    rcases hw : writeMarkerOpt color numCols tpb res g a with _ | g2
    · rfl
    · exact ih g2

/-- Witness for `oob_marker_dropped`: pitch 10 maps to row 98, out of the
88-row range, so the marker `(10, 0)` is dropped from a two-marker
sequence. -/
theorem oob_marker_dropped_witness :
    markerCol 480 10 0 = some 0 ∧
      writeMarkerOpt true 2 480 10 (emptyGrid 2) (10, 0) = some (emptyGrid 2) ∧
      placeAll true 2 480 10 (emptyGrid 2) [(60, 0), (10, 0)] =
        placeAll true 2 480 10 (emptyGrid 2) [(60, 0)] :=
  ⟨by decide,
    (oob_marker_dropped true 2 480 10 (emptyGrid 2) [(60, 0)] [] (10, 0) 0
      (by decide) (by decide)).1,
    (oob_marker_dropped true 2 480 10 (emptyGrid 2) [(60, 0)] [] (10, 0) 0
      (by decide) (by decide)).2⟩

/-! ### Claim C6: totality of grid generation and division by zero -/

theorem writeMarkerOpt_none {color : Bool} {nc tpb res : Nat}
    (hres : res ≠ 0) (hstep : tpb / res = 0) (g : Grid) (m : Nat × Nat) :
    writeMarkerOpt color nc tpb res g m = none := by
  simp [writeMarkerOpt, markerCol, pydiv, hres, hstep]

theorem orientOpt_isSome_of_shape {g : Grid} {nc : Nat} (h : Shape g nc) :
    (orientOpt g).isSome = true := by
  have hne : g ≠ [] := by
    intro habs
    rw [habs] at h
    have := h.1
    simp [num_rows] at this
  rw [orientOpt_rect g nc hne h.2]
  rfl

theorem length_sustainRowAux (base : String) :
    ∀ (cs : List String) (s : Bool) (t : String),
      (sustainRowAux base s t cs).length = cs.length := by
  intro cs
  induction cs with
  | nil => intro s t; rfl
  | cons c cs ih => intro s t; simp only [sustainRowAux, List.length_cons, ih]

theorem shape_sustainFillFrom {nc : Nat} (border : Bool) :
    ∀ (g : Grid) (i : Nat), (∀ row ∈ g, row.length = nc) →
      (sustainFillFrom border i g).length = g.length ∧
        ∀ row ∈ sustainFillFrom border i g, row.length = nc := by
  intro g
  induction g with
  | nil => intro i _; exact ⟨rfl, by simp [sustainFillFrom]⟩
  | cons row rest ih =>
    intro i h
    have ihr := ih (i + 1) fun r hr => h r (by simp [hr])
    refine ⟨by simp [sustainFillFrom, ihr.1], ?_⟩
    intro r2 hr2
    rw [sustainFillFrom] at hr2
    rcases List.mem_cons.mp hr2 with h2 | h2
    · rw [h2, sustainFillRow, length_sustainRowAux]
      exact h row (by simp)
    · exact ihr.2 r2 h2

theorem shape_sustainFill {g : Grid} {nc : Nat} (border : Bool)
    (h : Shape g nc) : Shape (sustainFill border g) nc := by
  have h2 := shape_sustainFillFrom border g 0 h.2
  exact ⟨by rw [sustainFill, h2.1, h.1], h2.2⟩

/-- C6: grid generation is total exactly under the precondition
`ticks_per_beat >= resolution`.  When `0 < ticks_per_beat < resolution` and
the sequence is non-empty, the column computation divides by
`ticks_per_beat // resolution == 0` and raises `ZeroDivisionError` (modelled
as `none`); when `resolution` is positive and `ticks_per_beat >= resolution`,
generation succeeds on every input. -/
theorem generate_total_iff_step_pos (border color : Bool) (res tpb : Nat)
    (notes : List (Nat × Nat)) :
    (0 < tpb → tpb < res → notes ≠ [] →
        generate border color res notes tpb = none) ∧
      (0 < res → res ≤ tpb →
        (generate border color res notes tpb).isSome = true) := by
  constructor
  · intro htpb hlt hne
    have hres : res ≠ 0 := by omega
    have hstep : tpb / res = 0 := Nat.div_eq_of_lt hlt
    have hmsne : flattenGroups (noteEndTimes notes) ≠ [] := by
      intro habs
      have := (flattenGroups_noteEndTimes notes).length_eq
      rw [habs] at this
      exact hne (List.eq_nil_of_length_eq_zero this.symm)
    have hplace : markedGrid color res notes tpb = none := by
      rw [markedGrid]
      rcases hms : flattenGroups (noteEndTimes notes) with _ | ⟨m, ms⟩
      · exact absurd hms hmsne
      · rw [placeAll, writeMarkerOpt_none hres hstep]
    rw [generate, preOriented, hplace]
    rfl
  · intro hres hle
    have hstep : tpb / res ≠ 0 := by
      have h1 : 1 ≤ tpb / res := (Nat.one_le_div_iff hres).mpr hle
      omega
    rw [generate, preOriented, markedGrid,
      placeAll_eq_placeAllT (by omega) hstep]
    simp only [Option.map_some', Option.some_bind]
    exact orientOpt_isSome_of_shape
      (shape_sustainFill border
        (shape_placeAllT color (tpb / res) _ _ (shape_emptyGrid notes.length)))

/-- Witness for `generate_total_iff_step_pos`: with `ticks_per_beat = 5 <
resolution = 10` generation raises, with `ticks_per_beat = 480 >=
resolution = 10` it succeeds, on the same one-note sequence. -/
theorem generate_total_iff_step_pos_witness :
    generate true true 10 [(60, 0), (60, 10)] 5 = none ∧
      (generate true true 10 [(60, 0), (60, 10)] 480).isSome = true :=
  ⟨(generate_total_iff_step_pos true true 10 5 [(60, 0), (60, 10)]).1
      (by decide) (by decide) (by decide),
    (generate_total_iff_step_pos true true 10 480 [(60, 0), (60, 10)]).2
      (by decide) (by decide)⟩

/-! ### Claim C2: the two-markers-same-column scenario -/

/-- C2 counterexample: for `[(60, 0), (60, 10)]` with `ticks_per_beat = 480`
and `resolution = 10`, both markers map to column 0, the second write
overwrites the first, and the single remaining toggle leaves the flag stuck
"inside": the sustain bar in row 48 is two columns wide, not one. -/
theorem sameColumn_bar_two_wide_cex :
    markerCol 480 10 0 = some 0 ∧ markerCol 480 10 10 = some 0 ∧
      (preOriented true true 10 [(60, 0), (60, 10)] 480).map
        (fun g => (g.getD 48 []).countP fun c => isNoteCell c) = some 2 ∧
      (2 : Nat) ≠ 1 :=
  ⟨by decide, by decide, by decide, by decide⟩

/-- C2 (amended): for `[(60, 0), (60, 10)]` with `ticks_per_beat = 480` and
`resolution = 10`, the pre-orientation grid has exactly one row containing
note glyphs, row `108 - 60 = 48`; both markers map to column 0
(`10 // 48 = 0`), so the second write overwrites the first, the toggle flag
never turns off, and the sustain bar fills the whole two-column row
(columns 0 and 1), i.e. it is two columns wide, not one. -/
theorem sameColumn_case_grid :
    markerCol 480 10 0 = some 0 ∧ markerCol 480 10 10 = some 0 ∧
      (preOriented true true 10 [(60, 0), (60, 10)] 480).map
        (fun g =>
          ((List.range num_rows).filter fun r =>
              (g.getD r []).any fun c => isNoteCell c,
            (g.getD 48 []).map fun c => isNoteCell c)) =
        some ([48], [true, true]) :=
  ⟨by decide, by decide, by decide⟩

/-! ### Claim C3: sustain bars are half-open -/

theorem sustainRowAux_append (base : String) :
    ∀ (xs ys : List String) (s : Bool) (t : String),
      sustainRowAux base s t (xs ++ ys) =
        sustainRowAux base s t xs ++
          sustainRowAux base (flagAfter s xs) (textAfter t xs) ys := by
  intro xs
  induction xs with
  | nil => intro ys s t; rfl
  | cons c cs ih =>
    intro ys s t
    simp only [List.cons_append, sustainRowAux, List.append_eq]
    rw [ih]
    rfl

theorem sustainRowAux_no_notes (base : String) :
    ∀ (xs : List String) (s : Bool) (t : String),
      (∀ c ∈ xs, isNoteCell c = false) →
        sustainRowAux base s t xs =
            List.replicate xs.length (if s then t else base) ∧
          flagAfter s xs = s ∧ textAfter t xs = t := by
  intro xs
  induction xs with
  | nil => intro s t _; exact ⟨rfl, rfl, rfl⟩
  | cons c cs ih =>
    intro s t h
    have hc : isNoteCell c = false := h c (by simp)
    have ihr := ih s t fun x hx => h x (by simp [hx])
    refine ⟨?_, ?_, ?_⟩
    · simp only [sustainRowAux, hc, Bool.false_eq_true, if_false, ihr.1,
        List.length_cons, List.replicate_succ]
    · simp only [flagAfter, List.foldl_cons, hc, Bool.false_eq_true, if_false]
      exact (ih s t fun x hx => h x (by simp [hx])).2.1
    · simp only [textAfter, List.foldl_cons, hc, Bool.false_eq_true, if_false]
      exact (ih s t fun x hx => h x (by simp [hx])).2.2

theorem sustainRowAux_note_cons (base c : String) (cs : List String) (s : Bool)
    (t : String) (h : isNoteCell c = true) :
    sustainRowAux base s t (c :: cs) =
      (if !s then c else base) :: sustainRowAux base (!s) c cs := by
  simp [sustainRowAux, h]

theorem isNoteCell_baseCell (border : Bool) (i : Nat) :
    isNoteCell (baseCell border i) = false := by
  rw [baseCell]
  split
  · decide
  · decide

/-- C3 (amended): in a row whose note-marker cells are exactly the two cells
of a single note, at onset column `a = pre.length` and release column
`b = pre.length + 1 + mid.length` with `a < b`, the sustain pass produces the
onset glyph in exactly the columns `a, ..., b - 1` — the half-open span
`[a, b)` — and a padding/border cell everywhere else.  In particular the
release column itself holds the padding/border cell, not the note glyph. -/
theorem sustain_run_halfOpen (border : Bool) (i : Nat)
    (pre mid post : List String) (ca cb : String)
    (hpre : ∀ c ∈ pre, isNoteCell c = false)
    (hmid : ∀ c ∈ mid, isNoteCell c = false)
    (hpost : ∀ c ∈ post, isNoteCell c = false)
    (hca : isNoteCell ca = true) (hcb : isNoteCell cb = true) :
    sustainFillRow border i (pre ++ ca :: (mid ++ cb :: post)) =
        List.replicate pre.length (baseCell border i) ++
          ca :: (List.replicate mid.length ca ++
            baseCell border i ::
              List.replicate post.length (baseCell border i)) ∧
      isNoteCell (baseCell border i) = false := by
  refine ⟨?_, isNoteCell_baseCell border i⟩
  have hb := sustainRowAux_no_notes (baseCell border i) pre false "" hpre
  have hm := sustainRowAux_no_notes (baseCell border i) mid true ca hmid
  have hp := sustainRowAux_no_notes (baseCell border i) post false cb hpost
  rw [sustainFillRow, sustainRowAux_append, hb.1, hb.2.1, hb.2.2,
    sustainRowAux_note_cons _ _ _ _ _ hca]
  simp only [Bool.not_false]
  rw [sustainRowAux_append, hm.1, hm.2.1, hm.2.2,
    sustainRowAux_note_cons _ _ _ _ _ hcb]
  simp only [Bool.not_true]
  rw [hp.1]
  simp

/-- Witness for `sustain_run_halfOpen`: a two-column row holding one note's
onset and release glyphs is filled as glyph-then-padding. -/
theorem sustain_run_halfOpen_witness :
    isNoteCell note_text = true ∧
      sustainFillRow true 48 [note_text, note_text] =
        [note_text, baseCell true 48] := by
  refine ⟨by decide, ?_⟩
  have h := (sustain_run_halfOpen true 48 [] [] [] note_text note_text
    (by simp) (by simp) (by simp) (by decide) (by decide)).1
  simpa using h

/-- C3 counterexample: for the note `[(60, 0), (60, 48)]` (onset column 0,
release column 1 of row 48), the cell at the release column after the sustain
pass is not a note glyph: the bar covers `[0, 1)`, not `[0, 1]`. -/
theorem release_column_not_glyph_cex :
    markerCol 480 10 0 = some 0 ∧ markerCol 480 10 48 = some 1 ∧
      (preOriented true true 10 [(60, 0), (60, 48)] 480).map
        (fun g => (g.getD 48 []).map fun c => isNoteCell c) =
        some [true, false] :=
  ⟨by decide, by decide, by decide⟩

/-! ### Cell-level characterisation of marker placement -/

theorem isNoteCell_glyph (color : Bool) (p : Int) :
    isNoteCell ((if color then get_color_code p else "") ++ note_text) = true := by
  rcases color with _ | _
  · rw [if_neg Bool.false_ne_true]
    decide
  · rw [if_pos rfl, get_color_code]
    rcases h : is_white_key p with _ | _
    · rw [if_neg (by simp [h])]
      decide
    · rw [if_pos (by simp [h])]
      decide

theorem cellAt_setCell {g : Grid} {nc : Nat} (h : Shape g nc) (r c : Nat)
    (v : String) (hr : r < num_rows) (_hc : c < nc) (r2 c2 : Nat)
    (hr2 : r2 < num_rows) (hc2 : c2 < nc) :
    cellAt (setCell g r c v) r2 c2 =
      if r = r2 ∧ c = c2 then v else cellAt g r2 c2 := by
  have hrg : r < g.length := by rw [h.1]; exact hr
  have hr2g : r2 < g.length := by rw [h.1]; exact hr2
  have hrow : g.getD r [] = g[r] := List.getD_eq_getElem _ [] hrg
  have hrowlen : (g.getD r []).length = nc := by
    rw [hrow]; exact h.2 _ (List.getElem_mem hrg)
  have hset_len : r2 < (setCell g r c v).length := by
    rw [setCell, List.length_set]; exact hr2g
  rw [cellAt, List.getD_eq_getElem _ [] hset_len]
  have hget : (setCell g r c v)[r2] =
      if r = r2 then (g.getD r []).set c v else g[r2] := List.getElem_set hset_len
  rw [hget]
  by_cases hrr : r = r2
  · rw [if_pos hrr]
    have hc2r : c2 < ((g.getD r []).set c v).length := by
      rw [List.length_set, hrowlen]; exact hc2
    rw [List.getD_eq_getElem _ "" hc2r]
    have hget2 : ((g.getD r []).set c v)[c2] =
        if c = c2 then v else (g.getD r [])[c2] := List.getElem_set hc2r
    rw [hget2]
    by_cases hcc : c = c2
    · rw [if_pos hcc, if_pos ⟨hrr, hcc⟩]
    · rw [if_neg hcc, if_neg (by tauto), cellAt, ← hrr,
        List.getD_eq_getElem _ "" (by rw [hrowlen]; exact hc2)]
  · rw [if_neg hrr, if_neg (by tauto), cellAt,
      List.getD_eq_getElem _ [] hr2g,
      List.getD_eq_getElem _ "" (by rw [h.2 _ (List.getElem_mem hr2g)]; exact hc2)]

theorem isNoteCell_cellAt_writeMarkerT {g : Grid} {nc : Nat} (h : Shape g nc)
    (color : Bool) (step : Nat) (m : Nat × Nat) (r c : Nat)
    (hr : r < num_rows) (hc : c < nc) :
    isNoteCell (cellAt (writeMarkerT color nc step g m) r c) =
      (isNoteCell (cellAt g r c) || hitsB step r c m) := by
  simp only [writeMarkerT]
  by_cases hin : 0 ≤ (108 : Int) - (m.1 : Int) ∧
      (108 : Int) - (m.1 : Int) < (num_rows : Int) ∧ m.2 / step < nc
  · rw [if_pos hin]
    have hr3 : ((108 : Int) - (m.1 : Int)).toNat < num_rows := by
      rcases hin with ⟨h1, h2, _⟩
      omega
    rw [cellAt_setCell h _ _ _ hr3 hin.2.2 r c hr hc]
    by_cases hht : ((108 : Int) - (m.1 : Int)).toNat = r ∧ m.2 / step = c
    · rw [if_pos hht, isNoteCell_glyph]
      have hhb : hitsB step r c m = true := by
        rw [hitsB]
        simp only [Bool.and_eq_true, beq_iff_eq]
        exact ⟨by omega, hht.2⟩
      rw [hhb, Bool.or_true]
    · have hhb : hitsB step r c m = false := by
        cases hb2 : hitsB step r c m
        · rfl
        · exfalso
          rw [hitsB] at hb2
          simp only [Bool.and_eq_true, beq_iff_eq] at hb2
          exact hht ⟨by omega, hb2.2⟩
      rw [if_neg hht, hhb, Bool.or_false]
  · rw [if_neg hin]
    have hhb : hitsB step r c m = false := by
      cases hb2 : hitsB step r c m
      · rfl
      · exfalso
        rw [hitsB] at hb2
        simp only [Bool.and_eq_true, beq_iff_eq] at hb2
        refine hin ⟨by omega, by omega, ?_⟩
        rw [hb2.2]
        exact hc
    rw [hhb, Bool.or_false]

theorem isNoteCell_cellAt_placeAllT {nc : Nat} (color : Bool) (step : Nat) :
    ∀ (ms : List (Nat × Nat)) (g : Grid), Shape g nc →
      ∀ (r c : Nat), r < num_rows → c < nc →
        isNoteCell (cellAt (placeAllT color nc step g ms) r c) =
          (isNoteCell (cellAt g r c) || ms.any (hitsB step r c)) := by
  intro ms
  induction ms with
  | nil => intro g h r c hr hc; simp [placeAllT]
  | cons m ms ih =>
    intro g h r c hr hc
    rw [placeAllT, ih _ (shape_writeMarkerT color step m h) r c hr hc,
      isNoteCell_cellAt_writeMarkerT h color step m r c hr hc, List.any_cons,
      Bool.or_assoc]

theorem cellAt_emptyGrid (nc r c : Nat) : cellAt (emptyGrid nc) r c = "" := by
  rw [cellAt, emptyGrid]
  rcases Nat.lt_or_ge r num_rows with hlt | hge
  · rw [List.getD_eq_getElem _ [] (by simpa using hlt), List.getElem_replicate]
    rcases Nat.lt_or_ge c nc with h2 | h2
    · rw [List.getD_eq_getElem _ "" (by simpa using h2), List.getElem_replicate]
    · have he : (List.replicate nc "").getD c "" = "" := by
        rw [List.getD_eq_getElem?_getD, List.getElem?_eq_none (by simpa using h2)]
        rfl
      rw [he]
  · have he : (List.replicate num_rows (List.replicate nc "")).getD r [] = [] := by
      rw [List.getD_eq_getElem?_getD, List.getElem?_eq_none (by simpa using hge)]
      rfl
    rw [he]
    rfl

/-! ### The toggle flag is the parity of the note cells in a row -/

theorem flagAfter_parity :
    ∀ (row : List String) (s : Bool),
      flagAfter s row = (s != ((row.countP fun c => isNoteCell c) % 2 == 1)) := by
  intro row
  induction row with
  | nil => intro s; simp [flagAfter]
  | cons c cs ih =>
    intro s
    have e1 : flagAfter s (c :: cs) =
        flagAfter (if isNoteCell c = true then !s else s) cs := rfl
    rcases h : isNoteCell c with _ | _
    · have e2 : (if isNoteCell c = true then !s else s) = s := by simp [h]
      rw [e1, e2, ih, List.countP_cons]
      simp [h]
    · have e2 : (if isNoteCell c = true then !s else s) = !s := by simp [h]
      rw [e1, e2, ih, List.countP_cons]
      have e3 : (if isNoteCell c = true then 1 else 0) = 1 := by simp [h]
      have h2 : ((((cs.countP fun c => isNoteCell c) + 1) % 2 == 1)) =
          (!((cs.countP fun c => isNoteCell c) % 2 == 1)) := by
        rcases Nat.mod_two_eq_zero_or_one (cs.countP fun c => isNoteCell c)
          with h3 | h3 <;> simp [Nat.add_mod, h3]
      rw [e3, h2]
      cases s <;> cases hb : ((cs.countP fun c => isNoteCell c) % 2 == 1) <;>
        simp [hb]

theorem countP_eq_range {α : Type} (d : α) :
    ∀ (l : List α) (p : α → Bool),
      l.countP p = (List.range l.length).countP fun i => p (l.getD i d) := by
  intro l
  induction l with
  | nil => intro p; rfl
  | cons c cs ih =>
    intro p
    rw [List.length_cons, List.range_succ_eq_map, List.countP_cons,
      List.countP_cons, List.countP_map]
    have e1 : ((fun i => p ((c :: cs).getD i d)) ∘ Nat.succ) =
        fun i => p (cs.getD i d) := rfl
    rw [e1, ← ih p]
    rfl

theorem countP_contains_of_nodup (xs : List Nat) (n : Nat) (hnd : xs.Nodup)
    (hb : ∀ x ∈ xs, x < n) :
    ((List.range n).countP fun c => xs.contains c) = xs.length := by
  have hperm : ((List.range n).filter fun c => xs.contains c).Perm xs := by
    rw [List.perm_ext_iff_of_nodup ((List.nodup_range n).filter _) hnd]
    intro a
    simp only [List.mem_filter, List.mem_range, List.elem_iff]
    constructor
    · rintro ⟨_, h2⟩
      exact h2
    · intro h2
      exact ⟨hb a h2, h2⟩
  calc ((List.range n).countP fun c => xs.contains c)
      = ((List.range n).filter fun c => xs.contains c).length := by
        rw [List.countP_eq_length_filter]
    _ = xs.length := hperm.length_eq

theorem any_eq_of_perm {α : Type} {l1 l2 : List α} (h : l1.Perm l2)
    (f : α → Bool) : l1.any f = l2.any f := by
  rw [Bool.eq_iff_iff, List.any_eq_true, List.any_eq_true]
  constructor
  · rintro ⟨x, hx, hfx⟩
    exact ⟨x, h.subset hx, hfx⟩
  · rintro ⟨x, hx, hfx⟩
    exact ⟨x, h.symm.subset hx, hfx⟩

/-! ### Claim C1: the toggle flag after the last column -/

/-- C1 (amended): for every well-formed event sequence (every pitch appears
an even number of times) in which, additionally, every marker's column is in
bounds and no two markers of the same pitch collapse to the same column —
so that no write of the placement stage is dropped or overwritten — the
sustain pass leaves no row with the "inside a sustained note" flag still set
after the last column. -/
theorem sustain_flag_clears (color : Bool) (res tpb : Nat)
    (notes : List (Nat × Nat)) (hres : res ≠ 0) (hstep : tpb / res ≠ 0)
    (hwf : wellFormed notes)
    (hcol : ∀ m ∈ notes, m.2 / (tpb / res) < notes.length)
    (hinj : notes.Pairwise fun m m2 =>
      m.1 = m2.1 → m.2 / (tpb / res) ≠ m2.2 / (tpb / res)) :
    ∀ g, markedGrid color res notes tpb = some g →
      ∀ row ∈ g, rowFinalFlag row = false := by
  intro g hg row hrow
  rw [markedGrid, placeAll_eq_placeAllT hres hstep] at hg
  have hgeq : placeAllT color notes.length (tpb / res) (emptyGrid notes.length)
      (flattenGroups (noteEndTimes notes)) = g := by
    injection hg
  subst hgeq
  set nc := notes.length with hnc
  set step := tpb / res with hstepd
  set ms := flattenGroups (noteEndTimes notes) with hms
  set G := placeAllT color nc step (emptyGrid nc) ms with hG
  have hsh : Shape G nc := shape_placeAllT color step ms _ (shape_emptyGrid nc)
  obtain ⟨r, hr, hre⟩ := List.mem_iff_getElem.mp hrow
  have hr88 : r < num_rows := by rw [← hsh.1]; exact hr
  have hr88n : r < 88 := by simpa [num_rows] using hr88
  have hrowg : G.getD r [] = row := by
    rw [List.getD_eq_getElem _ [] hr, hre]
  have hrowlen : row.length = nc := by
    rw [← hre]
    exact hsh.2 _ (List.getElem_mem hr)
  -- the filtered marker list of this row and its column list
  set xs := ((notes.filter fun m =>
    ((108 : Int) - (m.1 : Int) == (r : Int))).map fun m => m.2 / step) with hxs
  have hchar : ∀ c2 : Nat, c2 < nc →
      isNoteCell (cellAt G r c2) = notes.any (hitsB step r c2) := by
    intro c2 hc2
    rw [hG, isNoteCell_cellAt_placeAllT color step ms (emptyGrid nc)
      (shape_emptyGrid nc) r c2 hr88 hc2, cellAt_emptyGrid]
    have he : isNoteCell "" = false := by decide
    rw [he, Bool.false_or]
    exact any_eq_of_perm (flattenGroups_noteEndTimes notes) _
  have hcontains : ∀ c2 : Nat,
      notes.any (hitsB step r c2) = xs.contains c2 := by
    intro c2
    rw [Bool.eq_iff_iff, List.any_eq_true, List.elem_iff]
    constructor
    · rintro ⟨m, hm, hh⟩
      rw [hitsB] at hh
      simp only [Bool.and_eq_true, beq_iff_eq] at hh
      rw [hxs]
      simp only [List.mem_map, List.mem_filter]
      exact ⟨m, ⟨hm, by simp only [beq_iff_eq]; exact hh.1⟩, hh.2⟩
    · intro h2
      rw [hxs] at h2
      simp only [List.mem_map, List.mem_filter, beq_iff_eq] at h2
      obtain ⟨m, ⟨hm, hpred⟩, hcc⟩ := h2
      refine ⟨m, hm, ?_⟩
      rw [hitsB]
      simp only [Bool.and_eq_true, beq_iff_eq]
      exact ⟨hpred, hcc⟩
  have hnd : xs.Nodup := by
    rw [hxs, List.Nodup, List.pairwise_map]
    refine List.Pairwise.imp_of_mem ?_ ((hinj.filter _))
    intro a b ha hb hR
    have ha2 := (List.mem_filter.mp ha).2
    have hb2 := (List.mem_filter.mp hb).2
    simp only [beq_iff_eq] at ha2 hb2
    exact hR (by omega)
  have hbnd : ∀ x ∈ xs, x < nc := by
    intro x hx
    rw [hxs] at hx
    simp only [List.mem_map, List.mem_filter] at hx
    obtain ⟨m, ⟨hm, _⟩, rfl⟩ := hx
    exact hcol m hm
  have hcount : (row.countP fun c => isNoteCell c) = xs.length := by
    rw [countP_eq_range "", hrowlen]
    have hpt : ∀ i ∈ List.range nc,
        (isNoteCell (row.getD i "") = true) ↔ (xs.contains i = true) := by
      intro i hi
      have hgetD : row.getD i "" = cellAt G r i := by rw [cellAt, hrowg]
      rw [hgetD, hchar i (List.mem_range.mp hi), hcontains i]
    rw [List.countP_congr hpt]
    exact countP_contains_of_nodup xs nc hnd hbnd
  have heven : Even (row.countP fun c => isNoteCell c) := by
    rw [hcount, hxs, List.length_map]
    have hfc : (notes.filter fun m => ((108 : Int) - (m.1 : Int) == (r : Int))) =
        notes.filter fun m => m.1 == 108 - r := by
      refine List.filter_congr ?_
      intro m _
      rw [Bool.eq_iff_iff]
      simp only [beq_iff_eq]
      omega
    rw [hfc]
    exact hwf (108 - r)
  rw [Nat.even_iff] at heven
  rw [rowFinalFlag, flagAfter_parity row false, heven]
  decide

/-- Helper: a sequence of two markers of the same pitch is well-formed. -/
theorem wellFormed_pair (p t1 t2 : Nat) : wellFormed [(p, t1), (p, t2)] := by
  intro q
  by_cases h : p = q
  · subst h
    simp [List.filter]
  · have hb : (p == q) = false := by simpa using h
    simp [List.filter, hb]

/-- C1 counterexample: the well-formed sequence `[(60, 0), (60, 10)]` (one
note, onset and release markers of the same pitch) maps both markers to
column 0 with `ticks_per_beat = 480`, `resolution = 10`; the overwrite leaves
a single toggle cell in row 48, so the sustain pass ends that row — and
hence some row of the grid — with the "inside" flag still true. -/
theorem wellFormed_flag_stuck_cex :
    wellFormed [(60, 0), (60, 10)] ∧
      (markedGrid true 10 [(60, 0), (60, 10)] 480).map
        (fun g => rowFinalFlag (g.getD 48 [])) = some true ∧
      (markedGrid true 10 [(60, 0), (60, 10)] 480).map
        (fun g => g.any fun row => rowFinalFlag row) = some true :=
  ⟨wellFormed_pair 60 0 10, by decide, by decide⟩

/-- Witness for `sustain_flag_clears`: the well-formed sequence
`[(60, 0), (60, 48)]` maps its markers to the distinct in-bounds columns 0
and 1, and every row of its marker grid ends with the flag cleared. -/
theorem sustain_flag_clears_witness :
    wellFormed [(60, 0), (60, 48)] ∧
      (∀ g, markedGrid true 10 [(60, 0), (60, 48)] 480 = some g →
        ∀ row ∈ g, rowFinalFlag row = false) :=
  ⟨wellFormed_pair 60 0 48,
    sustain_flag_clears true 10 480 [(60, 0), (60, 48)] (by decide) (by decide)
      (wellFormed_pair 60 0 48) (by decide) (by decide)⟩

end PianoRoll
